import Mathlib

/-!
Shallow embedding of `src/packages/happy-dom/src/fetch/utilities/FetchBodyUtility.ts`.

The TypeScript file has two static methods:
  * `getBodyStream(window, body)` — dispatches on the runtime type of `body`
    and returns `{ contentType, contentLength, stream }`;
  * `consumeBodyStream(body, size)` — drains a readable stream into a buffer,
    enforcing a size limit, a premature-close check and a buffer-construction
    fallback.

Node `Buffer`s are modelled as `List Nat` of byte values; JS strings as Lean
`String` together with an explicit UTF-8 encoder and a UTF-16 length function
mirroring JS `String.prototype.length`.  Stream objects are modelled by the
finite list of chunks their async iteration yields plus the completion flags
the source inspects; `getBodyStream`'s allocations of fresh `Readable`
objects are modelled by a store (list) of stream objects addressed by index.
-/

set_option autoImplicit false

namespace HappyDom

/-- UTF-8 encoding of a single Unicode scalar value (a Lean `Char`), as the
list of its byte values.  This models what `Buffer.from(string)` does to each
code point of a JS string. -/
def charUtf8Bytes (c : Char) : List Nat :=
  let n := c.toNat
  if n < 0x80 then [n]
  else if n < 0x800 then [0xC0 + n / 0x40, 0x80 + n % 0x40]
  else if n < 0x10000 then
    [0xE0 + n / 0x1000, 0x80 + (n / 0x40) % 0x40, 0x80 + n % 0x40]
  else
    [0xF0 + n / 0x40000, 0x80 + (n / 0x1000) % 0x40, 0x80 + (n / 0x40) % 0x40,
      0x80 + n % 0x40]

/-- Byte content of `Buffer.from(s)` for a JS string `s`: UTF-8 bytes of all
its code points. -/
def utf8Bytes (s : String) : List Nat :=
  (s.data.map charUtf8Bytes).flatten

/-- Number of UTF-16 code units a character occupies in a JS string:
astral-plane characters are surrogate pairs and count as 2. -/
def jsCharLength (c : Char) : Nat :=
  if c.toNat < 0x10000 then 1 else 2

/-- JS `String.prototype.length`: the number of UTF-16 code units. -/
def jsStringLength (s : String) : Nat :=
  (s.data.map jsCharLength).sum

/-- The Unicode replacement character U+FFFD, produced by Node's lossy UTF-8
decoding of invalid byte sequences. -/
def replacementChar : Char := Char.ofNat 0xFFFD

/-- Fuel-indexed lossy UTF-8 decoding of a byte list, modelling Node
`Buffer.prototype.toString()` (default utf-8 encoding): well-formed sequences
decode to their code point, malformed bytes decode to U+FFFD.  The fuel is an
upper bound on the number of bytes, so `bufferToString` below always supplies
enough. -/
def utf8DecodeLossyAux : Nat → List Nat → List Char
  | 0, _ => []
  | _ + 1, [] => []
  | fuel + 1, b :: rest =>
    if b < 0x80 then Char.ofNat b :: utf8DecodeLossyAux fuel rest
    else if 0xC2 ≤ b ∧ b < 0xE0 then
      match rest with
      | b2 :: rest2 =>
        if 0x80 ≤ b2 ∧ b2 < 0xC0 then
          Char.ofNat ((b - 0xC0) * 0x40 + (b2 - 0x80)) :: utf8DecodeLossyAux fuel rest2
        else replacementChar :: utf8DecodeLossyAux fuel rest
      | [] => [replacementChar]
    else if 0xE0 ≤ b ∧ b < 0xF0 then
      match rest with
      | b2 :: b3 :: rest3 =>
        if 0x80 ≤ b2 ∧ b2 < 0xC0 ∧ 0x80 ≤ b3 ∧ b3 < 0xC0 then
          let n := (b - 0xE0) * 0x1000 + (b2 - 0x80) * 0x40 + (b3 - 0x80)
          if 0xD800 ≤ n ∧ n < 0xE000 then
            replacementChar :: utf8DecodeLossyAux fuel rest3
          else
            Char.ofNat n :: utf8DecodeLossyAux fuel rest3
        else replacementChar :: utf8DecodeLossyAux fuel rest
      | _ => [replacementChar]
    else if 0xF0 ≤ b ∧ b < 0xF5 then
      match rest with
      | b2 :: b3 :: b4 :: rest4 =>
        if 0x80 ≤ b2 ∧ b2 < 0xC0 ∧ 0x80 ≤ b3 ∧ b3 < 0xC0 ∧ 0x80 ≤ b4 ∧ b4 < 0xC0 then
          Char.ofNat
              ((b - 0xF0) * 0x40000 + (b2 - 0x80) * 0x1000 + (b3 - 0x80) * 0x40 +
                (b4 - 0x80)) ::
            utf8DecodeLossyAux fuel rest4
        else replacementChar :: utf8DecodeLossyAux fuel rest
      | _ => [replacementChar]
    else replacementChar :: utf8DecodeLossyAux fuel rest

/-- Model of Node `buffer.toString()` (lossy UTF-8 decoding). -/
def bufferToString (bytes : List Nat) : String :=
  String.mk (utf8DecodeLossyAux bytes.length bytes)

/-- One chunk delivered by a Node readable stream's async iteration: either a
JS string (a stream with an encoding set) or a `Buffer`. -/
inductive Chunk where
  | str (s : String)
  | buf (bytes : List Nat)
deriving DecidableEq

/-- JS `chunk.length`: byte count for a `Buffer` chunk, UTF-16 code-unit
count for a string chunk.  This is the quantity `consumeBodyStream`
accumulates in its `bytes` variable. -/
def Chunk.jsLength : Chunk → Nat
  | .str s => jsStringLength s
  | .buf b => b.length

/-- Byte content a chunk contributes to the final buffer (string chunks are
UTF-8 encoded by `Buffer.from`). -/
def Chunk.bytes : Chunk → List Nat
  | .str s => utf8Bytes s
  | .buf b => b

/-- Whether the chunk is a `Buffer` (`typeof chunk !== 'string'`). -/
def Chunk.isBuf : Chunk → Bool
  | .str _ => false
  | .buf _ => true

/-- Whether the chunk is a JS string (`typeof chunk === 'string'`). -/
def Chunk.isStr : Chunk → Bool
  | .str _ => true
  | .buf _ => false

/-- JS `String(chunk)`, used by `chunks.join('')`: a string chunk is itself,
a `Buffer` chunk is decoded by `buffer.toString()`. -/
def chunkToString : Chunk → String
  | .str s => s
  | .buf b => bufferToString b

/-- Model of a Node readable stream as seen by `consumeBodyStream`:
the finite list of chunks its `for await` iteration yields, the value of the
public `readableEnded` flag once iteration has finished, the value of the
internal `_readableState?.ended` flag (`none` models `undefined`, i.e. the
`_readableState` property being absent), whether a `destroy` method is
present, and whether a consumer (reader or pipe destination) has already been
attached — Node streams deliver their data only to the first consumer. -/
structure ReadableStream where
  chunks : List Chunk
  readableEnded : Bool := true
  readableStateEnded : Option Bool := some true
  hasDestroy : Bool := true
  consumed : Bool := false
deriving DecidableEq

instance : Inhabited ReadableStream := ⟨{ chunks := [] }⟩

/-- The full byte sequence a stream delivers: concatenation of its chunks'
byte contents. -/
def streamBytes (s : ReadableStream) : List Nat :=
  (s.chunks.map Chunk.bytes).flatten

/-- A store of allocated stream objects; a stream handle is an index into
the store.  This models the identity of the fresh `Readable`/`PassThrough`
objects `getBodyStream` creates. -/
abbrev StreamStore := List ReadableStream

/-- Look up a stream handle in the store. -/
def storeGet (st : StreamStore) (h : Nat) : ReadableStream :=
  st.getD h default

/-- Allocate a fresh stream object, returning the new store and the fresh
handle. -/
def storeAlloc (st : StreamStore) (s : ReadableStream) : StreamStore × Nat :=
  (st ++ [s], st.length)

/-- Fully read the stream behind a handle (as its single consumer would):
yields its byte sequence and leaves the object consumed; a stream that
already has a consumer attached yields nothing to a second reader. -/
def storeReadAll (st : StreamStore) (h : Nat) : StreamStore × List Nat :=
  let s := storeGet st h
  if s.consumed then (st, [])
  else (st.set h { s with chunks := [], consumed := true }, streamBytes s)

/-- Blob — Modelled from the spec: the `Blob` class is imported from
`../../file/Blob` and is not part of the sources; per the spec's BinaryBlob
row, a blob carries its underlying bytes (`_buffer`) and a declared MIME
type, and its `size` is its byte length. -/
structure Blob where
  _buffer : List Nat
  type : String

/-- Modelled from the spec: "blob byte size". -/
def Blob.size (b : Blob) : Nat := b._buffer.length

/-- The payload variants `getBodyStream` dispatches over, mirroring its
chain of runtime type tests.  `typedArray` models an `ArrayBuffer.isView`
value; a real JS view is always in bounds of its backing buffer, which the
`valid` field records.  `stream` carries a handle of an already-existing
stream object.  `formData` — Modelled from the spec: the multipart
collaborator (`MultipartFormDataParser.formDataToStream`, not in the
sources) returns its own descriptor, passed through unchanged, so the
variant carries that descriptor's content type, content length and stream
chunks.  `stringish` models any unrecognized value together with its JS
textual coercion `String(body)`. -/
inductive Body where
  | null
  | urlSearchParams (pairs : List (String × String))
  | blob (b : Blob)
  | buffer (bytes : List Nat)
  | arrayBuffer (bytes : List Nat)
  | typedArray (buffer : List Nat) (byteOffset byteLength : Nat)
      (valid : byteOffset + byteLength ≤ buffer.length)
  | stream (handle : Nat)
  | formData (contentType : Option String) (contentLength : Option Nat)
      (chunks : List Chunk)
  | stringish (coerced : String)

/-- Whether the payload is the multipart (`FormData`) variant. -/
def Body.isFormData : Body → Bool
  | .formData _ _ _ => true
  | _ => false

/-- Upper-case hexadecimal digit, as used by percent-encoding. -/
def hexUpper (n : Nat) : Char :=
  if n < 10 then Char.ofNat (0x30 + n) else Char.ofNat (0x41 + (n - 10))

/-- Bytes left verbatim by the `application/x-www-form-urlencoded`
serializer: `*`, `-`, `.`, digits, ASCII letters and `_`. -/
def isUrlencodedSafe (b : Nat) : Bool :=
  b = 0x2A || b = 0x2D || b = 0x2E || (0x30 ≤ b && b ≤ 0x39) ||
    (0x41 ≤ b && b ≤ 0x5A) || b = 0x5F || (0x61 ≤ b && b ≤ 0x7A)

/-- Percent-encoding of one byte in the urlencoded serializer: space becomes
`+`, safe bytes stay, everything else becomes `%XX`. -/
def percentEncodeByte (b : Nat) : List Char :=
  if b = 0x20 then [Char.ofNat 0x2B]
  else if isUrlencodedSafe b then [Char.ofNat b]
  else [Char.ofNat 0x25, hexUpper (b / 16), hexUpper (b % 16)]

/-- Urlencoded serialization of one string: percent-encode each UTF-8 byte. -/
def urlencodeString (s : String) : List Char :=
  ((utf8Bytes s).map percentEncodeByte).flatten

/-- Serialization of a pair list as `k=v` joined by `&`. -/
def serializePairs : List (String × String) → List Char
  | [] => []
  | [(k, v)] => urlencodeString k ++ Char.ofNat 0x3D :: urlencodeString v
  | (k, v) :: rest =>
    urlencodeString k ++ Char.ofNat 0x3D :: urlencodeString v ++
      Char.ofNat 0x26 :: serializePairs rest

/-- Model of Node's `URLSearchParams.prototype.toString()`: the WHATWG
`application/x-www-form-urlencoded` serializer applied to the parameter
pairs.  (`URLSearchParams` is a platform builtin imported from `url`, not
repository code.) -/
def urlSearchParamsToString (pairs : List (String × String)) : String :=
  String.mk (serializePairs pairs)

/-- The record `getBodyStream` returns; the stream member is a handle into
the store (`none` models the `stream: null` of the empty-body arm). -/
structure StreamDescriptor where
  contentType : Option String
  contentLength : Option Nat
  stream : Option Nat
deriving DecidableEq

/-- Shared shape of the allocating arms of `getBodyStream`: create a fresh
readable stream object delivering the given chunks (as `Stream.Readable.from`
does) and return it in a descriptor alongside the metadata. -/
def mkStreamResult (st : StreamStore) (ct : Option String) (cl : Option Nat)
    (chunks : List Chunk) : StreamStore × StreamDescriptor :=
  let (st', h) := storeAlloc st { chunks := chunks }
  (st', { contentType := ct, contentLength := cl, stream := some h })

/-- Translation of `FetchBodyUtility.getBodyStream`.  Each arm mirrors one
branch of the source's dispatch chain.  `Stream.Readable.from(buffer)`
yields the whole buffer as a single chunk.  The `stream` arm models
`body.pipe(new Stream.PassThrough())`: a fresh pass-through object carrying
the source's data is allocated, and piping attaches a consumer to the
source, marking it consumed. -/
def getBodyStream (st : StreamStore) (body : Body) :
    StreamStore × StreamDescriptor :=
  match body with
  | .null => (st, { contentType := none, contentLength := none, stream := none })
  | .urlSearchParams pairs =>
    let bodyAsString := urlSearchParamsToString pairs
    mkStreamResult st none (some (jsStringLength bodyAsString))
      [.buf (utf8Bytes bodyAsString)]
  | .blob b => mkStreamResult st (some b.type) (some b.size) [.buf b._buffer]
  | .buffer bytes => mkStreamResult st none (some bytes.length) [.buf bytes]
  | .arrayBuffer bytes =>
    mkStreamResult st none (some bytes.length) [.buf bytes]
  | .typedArray buffer off len _ =>
    mkStreamResult st none (some len) [.buf ((buffer.drop off).take len)]
  | .stream h =>
    let src := storeGet st h
    let piped := st.set h { src with consumed := true }
    mkStreamResult piped none none src.chunks
  | .formData ct cl chunks => mkStreamResult st ct cl chunks
  | .stringish s =>
    mkStreamResult st none (some (jsStringLength s)) [.buf (utf8Bytes s)]

/-- The descriptor `getBodyStream` returns for a payload. -/
def adaptResult (st : StreamStore) (body : Body) : StreamDescriptor :=
  (getBodyStream st body).2

/-- Byte content of the stream the returned descriptor points at (empty when
the descriptor has no stream). -/
def adaptedStreamBytes (st : StreamStore) (body : Body) : List Nat :=
  match getBodyStream st body with
  | (st', d) =>
    match d.stream with
    | some h => streamBytes (storeGet st' h)
    | none => []

/-- Error taxonomy of `consumeBodyStream`; each constructor corresponds to
one of the `DOMException`s it throws (all with name `InvalidStateError`):
`sizeLimitExceeded limit` to `Content size as reached the limit "limit"`,
`prematureClose` to `Premature close of server response.`, and
`bufferConstructionError` to `Could not create Buffer from response body.` -/
inductive CollectError where
  | sizeLimitExceeded (limit : Nat)
  | prematureClose
  | bufferConstructionError
deriving DecidableEq

/-- The observable outcome of a `consumeBodyStream` call: the settled value
of the returned promise, plus the argument of the `body.destroy(...)` call
when one was made. -/
structure CollectResult where
  result : Except CollectError (List Nat)
  destroyedWith : Option CollectError

/-- The argument of `consumeBodyStream`: the declared type is
`Stream.Readable | null`, but the guard also accepts any runtime value that
is not a `Stream` instance, modelled by `nonStream`. -/
inductive BodyArg where
  | nullArg
  | nonStream (value : String)
  | stream (s : ReadableStream)

/-- The `for await` read loop of `consumeBodyStream`: walks the chunks
keeping the running `bytes` total; returns `none` when the size check
`size && bytes + chunk.length > size` fires, otherwise the final total. -/
def readChunks (size : Nat) : List Chunk → Nat → Option Nat
  | [], bytes => some bytes
  | c :: rest, bytes =>
    if size ≠ 0 ∧ bytes + c.jsLength > size then none
    else readChunks size rest (bytes + c.jsLength)

/-- Model of `Buffer.concat(bufs, totalLength)`: concatenation truncated to
`totalLength` bytes, zero-filled when shorter. -/
def bufferConcat (bufs : List (List Nat)) (totalLength : Nat) : List Nat :=
  let joined := bufs.flatten
  joined.take totalLength ++ List.replicate (totalLength - joined.length) 0

/-- JS `chunks.join('')`: concatenation of the `String(chunk)` coercions. -/
def joinChunks (chunks : List Chunk) : String :=
  String.mk (((chunks.map chunkToString).map String.data).flatten)

/-- The final `try` block of `consumeBodyStream`: when the first chunk is a
string, `Buffer.from(chunks.join(''))`; otherwise `Buffer.concat(chunks,
bytes)`, which throws (caught as `bufferConstructionError`) when some chunk
is not a `Buffer`. -/
def buildBuffer (chunks : List Chunk) (bytes : Nat) :
    Except CollectError (List Nat) :=
  match chunks with
  | .str _ :: _ => .ok (utf8Bytes (joinChunks chunks))
  | _ =>
    if chunks.all Chunk.isBuf then
      .ok (bufferConcat (chunks.map Chunk.bytes) bytes)
    else .error .bufferConstructionError

/-- Translation of `FetchBodyUtility.consumeBodyStream`.  A `null` or
non-stream argument immediately yields an empty buffer.  Otherwise the read
loop runs; if the size check fires, `destroy` is called with the size error
(when present) and the size error is thrown.  After a complete iteration the
premature-close check compares `readableEnded` and `_readableState?.ended`,
and finally the buffer is constructed. -/
def consumeBodyStream (body : BodyArg) (size : Nat) : CollectResult :=
  match body with
  | .nullArg => { result := .ok [], destroyedWith := none }
  | .nonStream _ => { result := .ok [], destroyedWith := none }
  | .stream s =>
    match readChunks size s.chunks 0 with
    | none =>
      { result := .error (.sizeLimitExceeded size)
        destroyedWith :=
          if s.hasDestroy then some (.sizeLimitExceeded size) else none }
    | some bytes =>
      if s.readableEnded = false ∨ s.readableStateEnded = some false then
        { result := .error .prematureClose, destroyedWith := none }
      else
        { result := buildBuffer s.chunks bytes, destroyedWith := none }

/-- The byte sequence later read from the stream `getBodyStream` returned,
obtained by running `consumeBodyStream` (unbounded) on it. -/
def readBodyBytes (st : StreamStore) (body : Body) :
    Except CollectError (List Nat) :=
  match getBodyStream st body with
  | (st', d) =>
    match d.stream with
    | some h => (consumeBodyStream (.stream (storeGet st' h)) 0).result
    | none => .ok []

/-! Helper lemmas: characters and ASCII strings. -/

theorem charOfNat_toNat {n : Nat} (h : n < 0xD800) : (Char.ofNat n).toNat = n := by
  have hv : n.isValidChar := Or.inl h
  simp [Char.ofNat, hv, Char.ofNatAux, Char.toNat, UInt32.toNat, BitVec.toNat_ofNatLt]

theorem char_toNat_lt (c : Char) : c.toNat < 0x110000 := by
  have h := c.valid
  simp only [UInt32.isValidChar, Nat.isValidChar] at h
  simp only [Char.toNat]
  omega

theorem charUtf8Bytes_ascii {c : Char} (h : c.toNat < 0x80) :
    charUtf8Bytes c = [c.toNat] := by
  simp [charUtf8Bytes, h]

theorem jsCharLength_ascii {c : Char} (h : c.toNat < 0x80) : jsCharLength c = 1 := by
  simp only [jsCharLength, if_pos (by omega : c.toNat < 0x10000)]

theorem ascii_utf8_length {cs : List Char} (h : ∀ c ∈ cs, c.toNat < 0x80) :
    ((cs.map charUtf8Bytes).flatten).length = cs.length := by
  induction cs with
  | nil => rfl
  | cons c rest ih =>
    have hc : c.toNat < 0x80 := h c (List.mem_cons_self c rest)
    simp [charUtf8Bytes_ascii hc, ih fun x hx => h x (List.mem_cons_of_mem c hx)]

theorem ascii_js_length {cs : List Char} (h : ∀ c ∈ cs, c.toNat < 0x80) :
    (cs.map jsCharLength).sum = cs.length := by
  induction cs with
  | nil => rfl
  | cons c rest ih =>
    have hc : c.toNat < 0x80 := h c (List.mem_cons_self c rest)
    simp [jsCharLength_ascii hc, ih fun x hx => h x (List.mem_cons_of_mem c hx)]
    omega

theorem charUtf8Bytes_lt (c : Char) : ∀ b ∈ charUtf8Bytes c, b < 256 := by
  intro b hb
  have hc := char_toNat_lt c
  simp only [charUtf8Bytes] at hb
  split at hb
  · simp only [List.mem_cons, List.not_mem_nil, or_false] at hb
    omega
  · split at hb
    · simp only [List.mem_cons, List.not_mem_nil, or_false] at hb
      rcases hb with rfl | rfl <;> omega
    · split at hb
      · simp only [List.mem_cons, List.not_mem_nil, or_false] at hb
        rcases hb with rfl | rfl | rfl <;> omega
      · simp only [List.mem_cons, List.not_mem_nil, or_false] at hb
        rcases hb with rfl | rfl | rfl | rfl <;> omega

theorem utf8Bytes_lt (s : String) : ∀ b ∈ utf8Bytes s, b < 256 := by
  intro b hb
  simp only [utf8Bytes, List.mem_flatten, List.mem_map] at hb
  obtain ⟨l, ⟨c, _, rfl⟩, hbl⟩ := hb
  exact charUtf8Bytes_lt c b hbl

/-! Helper lemmas: the urlencoded serializer produces only ASCII output. -/

theorem hexUpper_ascii {n : Nat} (h : n < 16) : (hexUpper n).toNat < 0x80 := by
  simp only [hexUpper]
  split
  · rw [charOfNat_toNat (by omega)]; omega
  · rw [charOfNat_toNat (by omega)]; omega

theorem percentEncodeByte_ascii {b : Nat} (hb : b < 256) :
    ∀ c ∈ percentEncodeByte b, c.toNat < 0x80 := by
  intro c hc
  simp only [percentEncodeByte] at hc
  split at hc
  · simp only [List.mem_singleton] at hc
    subst hc; decide
  · split at hc
    · simp only [List.mem_singleton] at hc
      subst hc
      rename_i hsafe
      have hlt : b < 0x80 := by
        simp only [isUrlencodedSafe, Bool.or_eq_true, decide_eq_true_eq,
          Bool.and_eq_true] at hsafe
        omega
      rw [charOfNat_toNat (by omega)]; omega
    · simp only [List.mem_cons, List.not_mem_nil, or_false] at hc
      rcases hc with rfl | rfl | rfl
      · decide
      · exact hexUpper_ascii (by omega)
      · exact hexUpper_ascii (by omega)

theorem urlencodeString_ascii (s : String) :
    ∀ c ∈ urlencodeString s, c.toNat < 0x80 := by
  intro c hc
  simp only [urlencodeString, List.mem_flatten, List.mem_map] at hc
  obtain ⟨l, ⟨b, hb, rfl⟩, hcl⟩ := hc
  exact percentEncodeByte_ascii (utf8Bytes_lt s b hb) c hcl

theorem serializePairs_ascii (pairs : List (String × String)) :
    ∀ c ∈ serializePairs pairs, c.toNat < 0x80 := by
  induction pairs with
  | nil => intro c hc; simp [serializePairs] at hc
  | cons p rest ih =>
    intro c hc
    obtain ⟨k, v⟩ := p
    cases rest with
    | nil =>
      simp only [serializePairs, List.mem_append, List.mem_cons] at hc
      rcases hc with h | rfl | h
      · exact urlencodeString_ascii k c h
      · decide
      · exact urlencodeString_ascii v c h
    | cons q rest2 =>
      simp only [serializePairs, List.mem_append, List.mem_cons] at hc
      rcases hc with (h | rfl | h) | rfl | h
      · exact urlencodeString_ascii k c h
      · decide
      · exact urlencodeString_ascii v c h
      · decide
      · exact ih c h

theorem urlSearchParamsToString_lengths (pairs : List (String × String)) :
    (utf8Bytes (urlSearchParamsToString pairs)).length =
      jsStringLength (urlSearchParamsToString pairs) := by
  have h := serializePairs_ascii pairs
  simp only [urlSearchParamsToString, utf8Bytes, jsStringLength]
  rw [ascii_utf8_length h, ascii_js_length h]

/-! Helper lemmas: the stream store. -/

theorem storeGet_concat_self (st : StreamStore) (o : ReadableStream) :
    storeGet (st ++ [o]) st.length = o := by
  simp [storeGet, List.getD_eq_getElem?_getD, List.getElem?_concat_length]

theorem storeGet_append_lt (st tail : StreamStore) {h : Nat}
    (hh : h < st.length) : storeGet (st ++ tail) h = storeGet st h := by
  simp [storeGet, List.getD_eq_getElem?_getD, List.getElem?_append, hh]

theorem storeGet_set_ne (st : StreamStore) (i j : Nat) (x : ReadableStream)
    (hne : i ≠ j) : storeGet (st.set i x) j = storeGet st j := by
  simp [storeGet, List.getD_eq_getElem?_getD, List.getElem?_set_ne hne]

theorem storeGet_set_self (st : StreamStore) (i : Nat) (x : ReadableStream)
    (hi : i < st.length) : storeGet (st.set i x) i = x := by
  simp [storeGet, List.getD_eq_getElem?_getD, List.getElem?_set_self hi]

theorem mkStreamResult_eq (st : StreamStore) (ct : Option String)
    (cl : Option Nat) (chunks : List Chunk) :
    mkStreamResult st ct cl chunks =
      (st ++ [{ chunks := chunks }],
        { contentType := ct, contentLength := cl, stream := some st.length }) := rfl

/-! Helper lemmas: the read loop of `consumeBodyStream`. -/

theorem readChunks_size_zero (chunks : List Chunk) (bytes : Nat) :
    readChunks 0 chunks bytes = some (bytes + (chunks.map Chunk.jsLength).sum) := by
  induction chunks generalizing bytes with
  | nil => simp [readChunks]
  | cons c rest ih => simp [readChunks, ih]; omega

/-- The triggering condition of the size check, stated independently of the
loop: the limit is positive and the running total of chunk lengths exceeds it
on some prefix of the chunks. -/
def exceedsLimit (size : Nat) (chunks : List Chunk) : Prop :=
  0 < size ∧ ∃ k, k ≤ chunks.length ∧ size < ((chunks.take k).map Chunk.jsLength).sum

theorem readChunks_none_iff_aux (size : Nat) (hs : 0 < size) (chunks : List Chunk) :
    ∀ bytes : Nat, bytes ≤ size →
      (readChunks size chunks bytes = none ↔
        ∃ k, k ≤ chunks.length ∧
          size < bytes + ((chunks.take k).map Chunk.jsLength).sum) := by
  induction chunks with
  | nil =>
    intro bytes hb
    simp only [readChunks, List.length_nil, List.take_nil]
    constructor
    · intro h; exact absurd h (by simp)
    · rintro ⟨k, _, hk⟩
      simp at hk
      omega
  | cons c rest ih =>
    intro bytes hb
    by_cases hc : bytes + c.jsLength > size
    · have : readChunks size (c :: rest) bytes = none := by
        simp only [readChunks]
        rw [if_pos ⟨by omega, hc⟩]
      rw [this]
      simp only [true_iff]
      exact ⟨1, by simp, by simpa [Chunk.jsLength] using hc⟩
    · have hstep : readChunks size (c :: rest) bytes =
          readChunks size rest (bytes + c.jsLength) := by
        simp only [readChunks]
        rw [if_neg (by omega)]
      rw [hstep, ih (bytes + c.jsLength) (by omega)]
      constructor
      · rintro ⟨k, hk, hlt⟩
        exact ⟨k + 1, by simpa using hk, by simpa [List.take_succ_cons] using (by omega : size < bytes + (c.jsLength + ((rest.take k).map Chunk.jsLength).sum))⟩
      · rintro ⟨k, hk, hlt⟩
        match k, hk, hlt with
        | 0, _, hlt => simp at hlt; omega
        | k + 1, hk, hlt =>
          refine ⟨k, by simpa using hk, ?_⟩
          simp only [List.take_succ_cons, List.map_cons, List.sum_cons] at hlt
          omega

theorem readChunks_none_iff (size : Nat) (chunks : List Chunk) :
    readChunks size chunks 0 = none ↔ exceedsLimit size chunks := by
  rcases Nat.eq_zero_or_pos size with rfl | hs
  · rw [readChunks_size_zero]
    simp [exceedsLimit]
  · rw [readChunks_none_iff_aux size hs chunks 0 (by omega)]
    simp only [exceedsLimit, Nat.zero_add]
    exact ⟨fun h => ⟨hs, h⟩, fun h => h.2⟩

/-! Helper lemmas: buffer construction. -/

theorem allBuf_flatten_length {chunks : List Chunk} (h : chunks.all Chunk.isBuf = true) :
    ((chunks.map Chunk.bytes).flatten).length = (chunks.map Chunk.jsLength).sum := by
  induction chunks with
  | nil => rfl
  | cons c rest ih =>
    simp only [List.all_cons, Bool.and_eq_true] at h
    cases c with
    | str s => simp [Chunk.isBuf] at h
    | buf b => simp [Chunk.bytes, Chunk.jsLength, ih h.2]

theorem buildBuffer_allBuf {chunks : List Chunk} (h : chunks.all Chunk.isBuf = true) :
    buildBuffer chunks ((chunks.map Chunk.jsLength).sum) =
      .ok ((chunks.map Chunk.bytes).flatten) := by
  have hlen := allBuf_flatten_length h
  unfold buildBuffer
  split
  · simp [Chunk.isBuf] at h
  · rw [if_pos h]
    simp [bufferConcat, ← hlen]

theorem flatten_map_flatten {α β : Type} (f : α → List β) (L : List (List α)) :
    ((L.flatten).map f).flatten = (L.map fun l => (l.map f).flatten).flatten := by
  rw [List.map_flatten, List.flatten_flatten, List.map_map]
  rfl

theorem utf8Bytes_mk (cs : List Char) :
    utf8Bytes (String.mk cs) = (cs.map charUtf8Bytes).flatten := rfl

theorem utf8Bytes_joinChunks {chunks : List Chunk} (h : chunks.all Chunk.isStr = true) :
    utf8Bytes (joinChunks chunks) = (chunks.map Chunk.bytes).flatten := by
  rw [joinChunks, utf8Bytes_mk, flatten_map_flatten]
  simp only [List.map_map]
  congr 1
  refine List.map_congr_left fun c hc => ?_
  cases c with
  | str s => rfl
  | buf b =>
    have := List.all_eq_true.mp h _ hc
    simp [Chunk.isStr] at this

theorem buildBuffer_allStr {chunks : List Chunk} (h : chunks.all Chunk.isStr = true) :
    buildBuffer chunks ((chunks.map Chunk.jsLength).sum) =
      .ok ((chunks.map Chunk.bytes).flatten) := by
  cases chunks with
  | nil => simp [buildBuffer, bufferConcat]
  | cons c rest =>
    cases c with
    | buf b => simp [Chunk.isStr] at h
    | str s =>
      show Except.ok (utf8Bytes (joinChunks (Chunk.str s :: rest))) = _
      rw [utf8Bytes_joinChunks h]

/-! Helper lemmas: assembled collector behavior. -/

theorem consume_success (s : ReadableStream) (size bytes : Nat)
    (hEnded : s.readableEnded = true)
    (hState : s.readableStateEnded ≠ some false)
    (hb : readChunks size s.chunks 0 = some bytes) :
    consumeBodyStream (.stream s) size =
      { result := buildBuffer s.chunks bytes, destroyedWith := none } := by
  have hcond : ¬(s.readableEnded = false ∨ s.readableStateEnded = some false) := by
    rw [hEnded]
    push_neg
    exact ⟨by simp, hState⟩
  simp [consumeBodyStream, hb, hcond]

theorem consume_buf_default (b : List Nat) :
    consumeBodyStream (.stream { chunks := [Chunk.buf b] }) 0 =
      { result := .ok b, destroyedWith := none } := by
  have hb : readChunks 0 [Chunk.buf b] 0 = some b.length := by
    simpa [Chunk.jsLength] using readChunks_size_zero [Chunk.buf b] 0
  rw [consume_success _ 0 b.length rfl (by simp) hb]
  have : buildBuffer [Chunk.buf b] b.length = .ok b := by
    have h := @buildBuffer_allBuf [Chunk.buf b] (by simp [Chunk.isBuf])
    simpa [Chunk.jsLength, Chunk.bytes] using h
  rw [this]
/-! Claim C2. -/

/-- C2 counterexample: the claim "for every finite stream, `collect(stream, 0)`
succeeds and returns the concatenation of all chunks, with result length equal
to the sum of the consumed chunk lengths" is false as stated.  (a) A properly
ended stream of the single string chunk `"é"` succeeds, but the result has 2
bytes while the consumed chunk length (JS `"é".length`) is 1.  (b) A stream
whose completion flags disagree does not succeed at all: it fails with the
premature-close error.  (c) A stream mixing a buffer chunk before a string
chunk fails with the buffer-construction error.  (d) With a string chunk
before a buffer chunk of invalid UTF-8, the call succeeds but the result is
not the concatenation of the chunks' byte contents. -/
theorem c2_counterexample :
    ((consumeBodyStream (.stream { chunks := [Chunk.str "é"] }) 0).result =
        .ok [0xC3, 0xA9] ∧
      ([(0xC3 : Nat), 0xA9].length ≠
        ([Chunk.str "é"].map Chunk.jsLength).sum)) ∧
    (consumeBodyStream (.stream { chunks := [], readableEnded := false }) 0).result =
      .error .prematureClose ∧
    (consumeBodyStream (.stream { chunks := [Chunk.buf [65], Chunk.str "B"] }) 0).result =
      .error .bufferConstructionError ∧
    ((consumeBodyStream (.stream { chunks := [Chunk.str "A", Chunk.buf [0xFF]] }) 0).result =
        .ok [0x41, 0xEF, 0xBF, 0xBD] ∧
      [(0x41 : Nat), 0xEF, 0xBF, 0xBD] ≠
        ([Chunk.str "A", Chunk.buf [0xFF]].map Chunk.bytes).flatten) :=
  ⟨⟨rfl, by decide⟩, rfl, rfl, rfl, by decide⟩

/-- C2 amended: for every finite stream whose completion indicators both
report ended and whose chunks are homogeneous (all buffers or all strings),
`collect(stream, 0)` succeeds and returns the concatenation, in arrival
order, of the chunks' byte contents; and when every chunk is a byte buffer
the result's length equals the sum of the consumed chunk lengths (for string
chunks the consumed length counts UTF-16 units, which can differ from the
byte count). -/
theorem c2_amended (s : ReadableStream)
    (hEnded : s.readableEnded = true)
    (hState : s.readableStateEnded ≠ some false)
    (hHomog : s.chunks.all Chunk.isBuf = true ∨ s.chunks.all Chunk.isStr = true) :
    (consumeBodyStream (.stream s) 0).result =
      .ok ((s.chunks.map Chunk.bytes).flatten) ∧
    (s.chunks.all Chunk.isBuf = true →
      ((s.chunks.map Chunk.bytes).flatten).length =
        (s.chunks.map Chunk.jsLength).sum) := by
  have hb : readChunks 0 s.chunks 0 = some ((s.chunks.map Chunk.jsLength).sum) := by
    simpa using readChunks_size_zero s.chunks 0
  rw [consume_success s 0 _ hEnded hState hb]
  constructor
  · rcases hHomog with h | h
    · exact buildBuffer_allBuf h
    · exact buildBuffer_allStr h
  · intro h
    exact allBuf_flatten_length h

theorem c2_amended_witness :
    (consumeBodyStream
        (.stream { chunks := [Chunk.buf [1, 2], Chunk.buf [3]] }) 0).result =
      .ok (([Chunk.buf [1, 2], Chunk.buf [3]].map Chunk.bytes).flatten) ∧
    ([Chunk.buf [1, 2], Chunk.buf [3]].all Chunk.isBuf = true →
      (([Chunk.buf [1, 2], Chunk.buf [3]].map Chunk.bytes).flatten).length =
        ([Chunk.buf [1, 2], Chunk.buf [3]].map Chunk.jsLength).sum) :=
  c2_amended { chunks := [Chunk.buf [1, 2], Chunk.buf [3]] } rfl (by simp)
    (Or.inl rfl)

/-! Claim C3. -/

/-- C3 counterexample: the claim "whenever accepting the next chunk would push
the running byte total above `maxBytes`, collect destroys the stream and fails
with the size error" is false as stated: for the single string chunk `"éé"`
(4 UTF-8 bytes, but JS length 2) and limit 3, the call succeeds, returns the
4-byte buffer (exceeding the limit) and never invokes the termination
capability, because the loop accumulates `chunk.length` (UTF-16 units), not
bytes. -/
theorem c3_counterexample :
    (consumeBodyStream (.stream { chunks := [Chunk.str "éé"] }) 3).result =
      .ok [0xC3, 0xA9, 0xC3, 0xA9] ∧
    (consumeBodyStream (.stream { chunks := [Chunk.str "éé"] }) 3).destroyedWith =
      none ∧
    ([(0xC3 : Nat), 0xA9, 0xC3, 0xA9].length = 4 ∧ ¬(4 ≤ 3)) :=
  ⟨rfl, rfl, rfl, by decide⟩

/-- C3 amended: for every stream and every `maxBytes > 0`, if accepting some
chunk would push the running total of chunk lengths (bytes for buffer chunks,
UTF-16 units for string chunks) above `maxBytes`, then collect invokes the
stream's termination capability (exactly when one is present) with the size
error as argument, fails with the size error carrying that limit, and never
returns a buffer. -/
theorem c3_amended (s : ReadableStream) (size : Nat)
    (hex : exceedsLimit size s.chunks) :
    (consumeBodyStream (.stream s) size).result =
      .error (.sizeLimitExceeded size) ∧
    (consumeBodyStream (.stream s) size).destroyedWith =
      (if s.hasDestroy then some (.sizeLimitExceeded size) else none) := by
  have hnone : readChunks size s.chunks 0 = none :=
    (readChunks_none_iff size s.chunks).mpr hex
  constructor <;> simp [consumeBodyStream, hnone]

theorem c3_amended_witness :
    exceedsLimit 5 [Chunk.buf [1, 2, 3], Chunk.buf [4, 5, 6, 7]] ∧
    (consumeBodyStream
        (.stream { chunks := [Chunk.buf [1, 2, 3], Chunk.buf [4, 5, 6, 7]] })
        5).result = .error (.sizeLimitExceeded 5) ∧
    (consumeBodyStream
        (.stream { chunks := [Chunk.buf [1, 2, 3], Chunk.buf [4, 5, 6, 7]] })
        5).destroyedWith =
      (if ({ chunks := [Chunk.buf [1, 2, 3], Chunk.buf [4, 5, 6, 7]] } :
            ReadableStream).hasDestroy then
        some (.sizeLimitExceeded 5)
      else none) := by
  have hex : exceedsLimit 5 [Chunk.buf [1, 2, 3], Chunk.buf [4, 5, 6, 7]] :=
    ⟨by decide, 2, by decide, by decide⟩
  exact ⟨hex, c3_amended { chunks := [Chunk.buf [1, 2, 3], Chunk.buf [4, 5, 6, 7]] } 5 hex⟩

/-! Claim C4. -/

/-- C4: when the stream's iteration completes naturally (the size check never
fires) but a completion indicator disagrees (`readableEnded` is `false`, or
the internal `_readableState.ended` is `false`), collect fails with the
premature-close error instead of returning a buffer. -/
theorem c4_premature_close (s : ReadableStream) (size : Nat)
    (hcomplete : ¬ exceedsLimit size s.chunks)
    (hdis : s.readableEnded = false ∨ s.readableStateEnded = some false) :
    (consumeBodyStream (.stream s) size).result = .error .prematureClose := by
  have hsome : readChunks size s.chunks 0 ≠ none := fun h =>
    hcomplete ((readChunks_none_iff size s.chunks).mp h)
  obtain ⟨bytes, hb⟩ := Option.ne_none_iff_exists'.mp hsome
  simp [consumeBodyStream, hb, hdis]

theorem c4_premature_close_witness :
    (consumeBodyStream
        (.stream { chunks := [Chunk.buf [1, 2]], readableEnded := false })
        0).result = .error .prematureClose :=
  c4_premature_close { chunks := [Chunk.buf [1, 2]], readableEnded := false } 0
    (fun h => absurd h.1 (by decide)) (Or.inl rfl)

/-! Claim C8. -/

/-- C8: for every `maxBytes`, collect called with an absent (`null`) stream
immediately returns an empty buffer, without error and without invoking any
termination capability. -/
theorem c8_absent_stream (size : Nat) :
    consumeBodyStream .nullArg size = { result := .ok [], destroyedWith := none } :=
  rfl

/-! Claim C10. -/

/-- C10: collect returns an empty buffer without error for every argument
that is not a stream instance, whatever value stands in the stream's place. -/
theorem c10_non_stream_value (v : String) (size : Nat) :
    consumeBodyStream (.nonStream v) size =
      { result := .ok [], destroyedWith := none } :=
  rfl

/-! Helper lemmas: the adapter's allocating arms. -/

theorem readBodyBytes_mk (st : StreamStore) (body : Body) (ct : Option String)
    (cl : Option Nat) (b : List Nat)
    (h : getBodyStream st body = mkStreamResult st ct cl [Chunk.buf b]) :
    readBodyBytes st body = .ok b := by
  rw [readBodyBytes, h, mkStreamResult_eq]
  simp only [storeGet_concat_self]
  rw [consume_buf_default]

/-! Claim C1. -/

/-- C1 counterexample: the claim "for every variant with non-null
`contentLength` (including the Stringish fallback), that value equals the
exact byte count later read from the stream" is false as stated: for the
fallback payload coerced to `"é"`, the declared `contentLength` is the JS
character count 1, while the stream later yields the 2 UTF-8 bytes
`[0xC3, 0xA9]`. -/
theorem c1_counterexample :
    (adaptResult [] (Body.stringish "é")).contentLength = some 1 ∧
    readBodyBytes [] (Body.stringish "é") = .ok [0xC3, 0xA9] ∧
    ([(0xC3 : Nat), 0xA9].length ≠ 1) :=
  ⟨rfl, rfl, by decide⟩

/-- C1 amended: for every payload variant with non-null `contentLength`
other than the collaborator-defined multipart variant, reading the returned
stream succeeds, and: for every variant except the Stringish fallback the
declared `contentLength` equals the exact byte count read (this includes
URLEncodedForm, whose serialized form is pure ASCII); for the Stringish
fallback the declared value is the UTF-16 character count of the coerced
string, while the stream yields its UTF-8 bytes — the two coincide exactly
when the coercion is ASCII. -/
theorem c1_amended (st : StreamStore) (body : Body) (n : Nat)
    (hfd : body.isFormData = false)
    (hcl : (adaptResult st body).contentLength = some n) :
    (∀ s, body = Body.stringish s →
      n = jsStringLength s ∧ readBodyBytes st body = .ok (utf8Bytes s)) ∧
    ((∀ s, body ≠ Body.stringish s) →
      ∃ bs, readBodyBytes st body = .ok bs ∧ bs.length = n) := by
  cases body with
  | null => exact absurd hcl (by simp [adaptResult, getBodyStream])
  | stream h =>
    exact absurd hcl (by simp [adaptResult, getBodyStream, mkStreamResult_eq])
  | formData ct cl chunks => simp [Body.isFormData] at hfd
  | stringish s =>
    refine ⟨?_, fun hne => absurd rfl (hne s)⟩
    rintro s' heq
    injection heq with hss
    subst hss
    have hn := Option.some.inj hcl
    exact ⟨hn.symm, readBodyBytes_mk st _ none _ _ rfl⟩
  | urlSearchParams pairs =>
    refine ⟨fun s heq => Body.noConfusion heq, fun _ => ?_⟩
    refine ⟨utf8Bytes (urlSearchParamsToString pairs),
      readBodyBytes_mk st _ none _ _ rfl, ?_⟩
    have hn := Option.some.inj hcl
    rw [urlSearchParamsToString_lengths pairs, hn]
  | blob b =>
    refine ⟨fun s heq => Body.noConfusion heq, fun _ => ?_⟩
    refine ⟨b._buffer, readBodyBytes_mk st _ (some b.type) _ _ rfl, ?_⟩
    exact Option.some.inj hcl
  | buffer bytes =>
    refine ⟨fun s heq => Body.noConfusion heq, fun _ => ?_⟩
    exact ⟨bytes, readBodyBytes_mk st _ none _ _ rfl, Option.some.inj hcl⟩
  | arrayBuffer bytes =>
    refine ⟨fun s heq => Body.noConfusion heq, fun _ => ?_⟩
    exact ⟨bytes, readBodyBytes_mk st _ none _ _ rfl, Option.some.inj hcl⟩
  | typedArray buffer off len hv =>
    refine ⟨fun s heq => Body.noConfusion heq, fun _ => ?_⟩
    refine ⟨(buffer.drop off).take len, readBodyBytes_mk st _ none _ _ rfl, ?_⟩
    have hn := Option.some.inj hcl
    simp only [List.length_take, List.length_drop]
    omega

theorem c1_amended_witness :
    (∀ s, Body.buffer [65, 66, 67] = Body.stringish s →
      3 = jsStringLength s ∧
        readBodyBytes [] (Body.buffer [65, 66, 67]) = .ok (utf8Bytes s)) ∧
    ((∀ s, Body.buffer [65, 66, 67] ≠ Body.stringish s) →
      ∃ bs, readBodyBytes [] (Body.buffer [65, 66, 67]) = .ok bs ∧
        bs.length = 3) :=
  c1_amended [] (Body.buffer [65, 66, 67]) 3 rfl rfl

/-! Claim C6. -/

/-- C6: the adapter is a total function of the payload — the embedding has
no error channel because the source's `getBodyStream` contains no `throw` —
and every payload not matching a recognized variant reaches the final
fallback arm, which returns a stream of the UTF-8 bytes of the payload's
textual coercion `String(body)` (with null content type and the coercion's
character count as content length) rather than failing. -/
theorem c6_fallback_total (st : StreamStore) (s : String) :
    adaptResult st (.stringish s) =
      { contentType := none, contentLength := some (jsStringLength s),
        stream := some st.length } ∧
    adaptedStreamBytes st (.stringish s) = utf8Bytes s := by
  refine ⟨rfl, ?_⟩
  rw [adaptedStreamBytes]
  simp [getBodyStream, mkStreamResult_eq, storeGet_concat_self, streamBytes,
    Chunk.bytes]

/-! Claim C7. -/

/-- C7: for every in-bounds typed-array view (offset plus length within the
backing buffer, as JS guarantees for every real view), the adapter returns a
stream holding exactly the bytes of the `[offset, offset + byteLength)`
window of the backing buffer — never bytes outside it — and a
`contentLength` equal to `byteLength`. -/
theorem c7_typed_view_window (st : StreamStore) (buffer : List Nat)
    (off len : Nat) (hv : off + len ≤ buffer.length) :
    adaptedStreamBytes st (.typedArray buffer off len hv) =
      (buffer.drop off).take len ∧
    (adaptedStreamBytes st (.typedArray buffer off len hv)).length = len ∧
    (adaptResult st (.typedArray buffer off len hv)).contentLength = some len ∧
    (∀ i, i < len →
      (adaptedStreamBytes st (.typedArray buffer off len hv)).getD i 0 =
        buffer.getD (off + i) 0) := by
  have hbytes : adaptedStreamBytes st (.typedArray buffer off len hv) =
      (buffer.drop off).take len := by
    rw [adaptedStreamBytes]
    simp [getBodyStream, mkStreamResult_eq, storeGet_concat_self, streamBytes,
      Chunk.bytes]
  refine ⟨hbytes, ?_, rfl, ?_⟩
  · rw [hbytes]
    simp only [List.length_take, List.length_drop]
    omega
  · intro i hi
    rw [hbytes, List.getD_eq_getElem?_getD, List.getD_eq_getElem?_getD,
      List.getElem?_take_of_lt hi, List.getElem?_drop]

theorem c7_typed_view_window_witness :
    adaptedStreamBytes [] (.typedArray [10, 20, 30, 40] 1 2 (by decide)) =
      ([10, 20, 30, 40].drop 1).take 2 ∧
    (adaptedStreamBytes [] (.typedArray [10, 20, 30, 40] 1 2 (by decide))).length = 2 ∧
    (adaptResult [] (.typedArray [10, 20, 30, 40] 1 2 (by decide))).contentLength =
      some 2 ∧
    (∀ i, i < 2 →
      (adaptedStreamBytes [] (.typedArray [10, 20, 30, 40] 1 2 (by decide))).getD i 0 =
        [10, 20, 30, 40].getD (1 + i) 0) :=
  c7_typed_view_window [] [10, 20, 30, 40] 1 2 (by decide)

/-! Claim C5. -/

/-- C5 counterexample: the claim that adapting a live stream leaves "the
original un-consumed and still readable by its owner" is false: starting
from a store holding one un-consumed stream, after `getBodyStream` the
original stream object has a consumer attached (`body.pipe(...)` was called
on it), and its owner reading it now obtains nothing. -/
theorem c5_counterexample :
    (storeGet [({ chunks := [Chunk.buf [1, 2, 3]] } : ReadableStream)] 0).consumed =
      false ∧
    (storeGet (getBodyStream [{ chunks := [Chunk.buf [1, 2, 3]] }]
        (.stream 0)).1 0).consumed = true ∧
    (storeReadAll (getBodyStream [{ chunks := [Chunk.buf [1, 2, 3]] }]
        (.stream 0)).1 0).2 = [] ∧
    (adaptResult [{ chunks := [Chunk.buf [1, 2, 3]] }] (.stream 0)).stream =
      some 1 := by
  decide

/-- C5 amended: for every live-stream payload (a valid handle into the
store), the adapter returns a descriptor with null content type, null
content length and a fresh pass-through stream — a new handle, distinct from
the source's, carrying the same byte sequence, so the original handle is
never exposed downstream — but the source is thereby consumed (piping
attaches a consumer), not left un-consumed and reusable by its owner. -/
theorem c5_amended (st : StreamStore) (h : Nat) (hh : h < st.length) :
    (adaptResult st (.stream h)).contentType = none ∧
    (adaptResult st (.stream h)).contentLength = none ∧
    (adaptResult st (.stream h)).stream = some st.length ∧
    st.length ≠ h ∧
    streamBytes (storeGet (getBodyStream st (.stream h)).1 st.length) =
      streamBytes (storeGet st h) ∧
    (storeGet (getBodyStream st (.stream h)).1 h).consumed = true ∧
    (storeReadAll (getBodyStream st (.stream h)).1 h).2 = [] := by
  have hres : getBodyStream st (.stream h) =
      (st.set h { storeGet st h with consumed := true } ++
          [{ chunks := (storeGet st h).chunks }],
        { contentType := none, contentLength := none,
          stream := some (st.set h { storeGet st h with consumed := true }).length }) := by
    rw [getBodyStream, mkStreamResult_eq]
  have hlen : (st.set h { storeGet st h with consumed := true }).length =
      st.length := List.length_set st h _
  have hget : storeGet (getBodyStream st (.stream h)).1 h =
      { storeGet st h with consumed := true } := by
    rw [hres]
    rw [storeGet_append_lt _ _ (by rw [hlen]; exact hh)]
    exact storeGet_set_self st h _ hh
  refine ⟨?_, ?_, ?_, by omega, ?_, ?_, ?_⟩
  · rw [adaptResult, hres]
  · rw [adaptResult, hres]
  · rw [adaptResult, hres]
    simp [hlen]
  · rw [hres]
    have : storeGet
        (st.set h { storeGet st h with consumed := true } ++
          [{ chunks := (storeGet st h).chunks }]) st.length =
        { chunks := (storeGet st h).chunks } := by
      rw [← hlen, storeGet_concat_self]
    rw [this]
    rfl
  · rw [hget]
  · rw [storeReadAll, hget]
    simp

theorem c5_amended_witness :
    (adaptResult [{ chunks := [Chunk.buf [9]] }] (.stream 0)).contentType = none ∧
    (adaptResult [{ chunks := [Chunk.buf [9]] }] (.stream 0)).contentLength = none ∧
    (adaptResult [{ chunks := [Chunk.buf [9]] }] (.stream 0)).stream =
      some ([({ chunks := [Chunk.buf [9]] } : ReadableStream)] : StreamStore).length ∧
    ([({ chunks := [Chunk.buf [9]] } : ReadableStream)] : StreamStore).length ≠ 0 ∧
    streamBytes (storeGet (getBodyStream [{ chunks := [Chunk.buf [9]] }]
        (.stream 0)).1
        ([({ chunks := [Chunk.buf [9]] } : ReadableStream)] : StreamStore).length) =
      streamBytes (storeGet [{ chunks := [Chunk.buf [9]] }] 0) ∧
    (storeGet (getBodyStream [{ chunks := [Chunk.buf [9]] }] (.stream 0)).1 0).consumed =
      true ∧
    (storeReadAll (getBodyStream [{ chunks := [Chunk.buf [9]] }] (.stream 0)).1 0).2 =
      [] :=
  c5_amended [{ chunks := [Chunk.buf [9]] }] 0 (by decide)

/-! Claim C9. -/

theorem getBodyStream_shape (body : Body) (hs : ∀ h, body ≠ Body.stream h)
    (hn : body ≠ Body.null) :
    ∃ ct cl chunks, ∀ st, getBodyStream st body = mkStreamResult st ct cl chunks := by
  cases body with
  | null => exact absurd rfl hn
  | stream h => exact absurd rfl (hs h)
  | urlSearchParams pairs => exact ⟨_, _, _, fun st => rfl⟩
  | blob b => exact ⟨_, _, _, fun st => rfl⟩
  | buffer bytes => exact ⟨_, _, _, fun st => rfl⟩
  | arrayBuffer bytes => exact ⟨_, _, _, fun st => rfl⟩
  | typedArray buffer off len hv => exact ⟨_, _, _, fun st => rfl⟩
  | formData ct cl chunks => exact ⟨_, _, _, fun st => rfl⟩
  | stringish s => exact ⟨_, _, _, fun st => rfl⟩

theorem storeReadAll_two_fresh (st : StreamStore) (o : ReadableStream)
    (ho : o.consumed = false) :
    (storeReadAll ((st ++ [o]) ++ [o]) st.length).2 = streamBytes o ∧
    (storeReadAll (storeReadAll ((st ++ [o]) ++ [o]) st.length).1
        (st.length + 1)).2 = streamBytes o := by
  have hget1 : storeGet ((st ++ [o]) ++ [o]) st.length = o := by
    rw [storeGet_append_lt _ _ (by simp), storeGet_concat_self]
  have hra1 : storeReadAll ((st ++ [o]) ++ [o]) st.length =
      (((st ++ [o]) ++ [o]).set st.length { o with chunks := [], consumed := true },
        streamBytes o) := by
    rw [storeReadAll, hget1]
    simp [ho]
  have hget2 : storeGet
      ((((st ++ [o]) ++ [o]).set st.length { o with chunks := [], consumed := true }))
      (st.length + 1) = o := by
    rw [storeGet_set_ne _ _ _ _ (by omega)]
    have hl : st.length + 1 = (st ++ [o]).length := by simp
    rw [hl, storeGet_concat_self]
  refine ⟨by rw [hra1], ?_⟩
  rw [hra1]
  rw [storeReadAll, hget2]
  simp [ho]

/-- C9: adapting the same non-stream payload twice produces two streams with
distinct identities (fresh handles), and the two are independently readable:
fully reading the first, then the second, yields the same byte sequence from
each. -/
theorem c9_double_adapt_independent (st : StreamStore) (body : Body)
    (hs : ∀ h, body ≠ Body.stream h) (hn : body ≠ Body.null) :
    ∃ h1 h2 bs,
      (adaptResult st body).stream = some h1 ∧
      (adaptResult (getBodyStream st body).1 body).stream = some h2 ∧
      h1 ≠ h2 ∧
      (storeReadAll (getBodyStream (getBodyStream st body).1 body).1 h1).2 = bs ∧
      (storeReadAll
          (storeReadAll (getBodyStream (getBodyStream st body).1 body).1 h1).1
          h2).2 = bs := by
  obtain ⟨ct, cl, chunks, heq⟩ := getBodyStream_shape body hs hn
  refine ⟨st.length, st.length + 1, streamBytes { chunks := chunks }, ?_, ?_,
    by omega, ?_, ?_⟩
  · rw [adaptResult, heq st, mkStreamResult_eq]
  · rw [adaptResult, heq st, mkStreamResult_eq]
    simp only [heq, mkStreamResult_eq]
    simp
  · simp only [heq, mkStreamResult_eq]
    exact (storeReadAll_two_fresh st { chunks := chunks } rfl).1
  · simp only [heq, mkStreamResult_eq]
    exact (storeReadAll_two_fresh st { chunks := chunks } rfl).2

theorem c9_double_adapt_independent_witness :
    ∃ h1 h2 bs,
      (adaptResult [] (Body.buffer [65, 66])).stream = some h1 ∧
      (adaptResult (getBodyStream [] (Body.buffer [65, 66])).1
          (Body.buffer [65, 66])).stream = some h2 ∧
      h1 ≠ h2 ∧
      (storeReadAll (getBodyStream (getBodyStream [] (Body.buffer [65, 66])).1
          (Body.buffer [65, 66])).1 h1).2 = bs ∧
      (storeReadAll
          (storeReadAll (getBodyStream (getBodyStream [] (Body.buffer [65, 66])).1
              (Body.buffer [65, 66])).1 h1).1
          h2).2 = bs :=
  c9_double_adapt_independent [] (Body.buffer [65, 66])
    (fun _ heq => Body.noConfusion heq) (fun heq => Body.noConfusion heq)

end HappyDom
